import Mathlib

/-
Verification of the distributed file storage system (src/server.py,
src/dfs.py, src/client.py) against its natural-language specification.

The Python program is shallowly embedded: every class becomes a structure,
every method becomes a pure function that returns an updated value, and a
Python exception becomes the `none` case of an `Option` result.  The system
has a fixed three-site topology (the `DataCenter` enum), so the global state
is a structure with one `Server` per site plus the list of `Client` objects.
Callback handles (bound methods `Client.invalidate_cache_entry`) are
represented by the index of the client in that list: two handles are equal
in Python exactly when they belong to the same client object.
-/

namespace DFSModel

/-- The `DataCenter` enum of src/server.py. -/
inductive DataCenter where
  | NEW_YORK
  | TORONTO
  | LONDON
deriving DecidableEq

/-- Iteration order of `servers_by_dc` (insertion order of the three
servers built in src/main.py: New York, Toronto, London). -/
def allDataCenters : List DataCenter := [.NEW_YORK, .TORONTO, .LONDON]

/-- Position of a data center in the fixed enumeration order. -/
def dcIndex : DataCenter → Nat
  | .NEW_YORK => 0
  | .TORONTO => 1
  | .LONDON => 2

/-- `FileVersion` of src/server.py: one stored version of a file. -/
structure FileVersion where
  name : String
  content : String
  version : Nat
deriving DecidableEq

/-- Lookup in a Python dict modelled as an association list. -/
def alLookup {α : Type} (k : String) : List (String × α) → Option α
  | [] => none
  | (k', v) :: rest => if k' = k then some v else alLookup k rest

/-- Assignment `d[k] = v` on a Python dict modelled as an association
list: replace the binding if the key is present, append it otherwise. -/
def alInsert {α : Type} (k : String) (v : α) : List (String × α) → List (String × α)
  | [] => [(k, v)]
  | (k', v') :: rest => if k' = k then (k, v) :: rest else (k', v') :: alInsert k v rest

/-- `Server` of src/server.py.  The `dc` field of the Python object is
dropped: in the fixed three-site system the slot of the server inside
`SysState` identifies its data center, and the Python field is used only
for dictionary keying and log output.  `cache_listeners` maps a file name
to the list of subscribed callbacks, a callback being the index of the
owning client. -/
structure Server where
  files : List (String × FileVersion)
  alive : Bool
  cache_listeners : List (String × List Nat)
deriving DecidableEq

/-- `Server.is_available`. -/
def Server.is_available (s : Server) : Bool := s.alive

/-- `Server.bring_down`. -/
def Server.bring_down (s : Server) : Server := { s with alive := false }

/-- `Server.bring_up`. -/
def Server.bring_up (s : Server) : Server := { s with alive := true }

/-- `Server.store_initial_file`: unconditional insert, no availability
check, used at bootstrap only. -/
def Server.store_initial_file (s : Server) (name content : String) (version : Nat) : Server :=
  { s with files := alInsert name ⟨name, content, version⟩ s.files }

/-- `Server.read_file`: `none` when the server is down or the file was
never stored. -/
def Server.read_file (s : Server) (name : String) : Option FileVersion :=
  if s.is_available then alLookup name s.files else none

/-- `Server.apply_update`: silent no-op when down; otherwise mutate the
existing `FileVersion` in place (keeping its `name` field) or create a
fresh one. -/
def Server.apply_update (s : Server) (name content : String) (version : Nat) : Server :=
  if s.is_available then
    match alLookup name s.files with
    | some fv =>
        { s with files := alInsert name { fv with content := content, version := version } s.files }
    | none =>
        { s with files := alInsert name ⟨name, content, version⟩ s.files }
  else s

/-- `Server.register_cache_listener`: `setdefault` to `[]` then append the
callback only if it is not already subscribed. -/
def Server.register_cache_listener (s : Server) (name : String) (cb : Nat) : Server :=
  if cb ∈ (alLookup name s.cache_listeners).getD [] then s
  else { s with
    cache_listeners :=
      alInsert name ((alLookup name s.cache_listeners).getD [] ++ [cb]) s.cache_listeners }

/-- The list of callbacks that `Server.invalidate_caches` invokes for a
file, in order: `self._cache_listeners.get(file_name, [])`. -/
def invalidate_targets (s : Server) (name : String) : List Nat :=
  (alLookup name s.cache_listeners).getD []

/-- `CacheEntry` of src/client.py; freshly constructed entries have
`valid = true`. -/
structure CacheEntry where
  content : String
  version : Nat
  valid : Bool
deriving DecidableEq

/-- `Client` of src/client.py (the `name` string and the back pointer to
the DFS object are dropped: the first is log output, the second is the
global state threaded explicitly). -/
structure Client where
  preferred_dc : DataCenter
  cache : List (String × CacheEntry)
deriving DecidableEq

/-- `Client.invalidate_cache_entry`: mark the matching entry, if any,
invalid; a no-op otherwise. -/
def Client.invalidate_cache_entry (c : Client) (name : String) : Client :=
  match alLookup name c.cache with
  | some e => { c with cache := alInsert name { e with valid := false } c.cache }
  | none => c

/-- Global state: the three servers (one per `DataCenter`) plus the list
of clients.  The primary table is read-only configuration and is passed
separately to the operations. -/
structure SysState where
  newYork : Server
  toronto : Server
  london : Server
  clients : List Client
deriving DecidableEq

/-- `servers_by_dc` lookup. -/
def SysState.server (st : SysState) : DataCenter → Server
  | .NEW_YORK => st.newYork
  | .TORONTO => st.toronto
  | .LONDON => st.london

/-- Replace the server of one data center. -/
def SysState.setServer (st : SysState) (dc : DataCenter) (s : Server) : SysState :=
  match dc with
  | .NEW_YORK => { st with newYork := s }
  | .TORONTO => { st with toronto := s }
  | .LONDON => { st with london := s }

/-- Apply a method to the server of one data center. -/
def SysState.updServer (st : SysState) (dc : DataCenter) (f : Server → Server) : SysState :=
  st.setServer dc (f (st.server dc))

/-- The primary table `file_name -> DataCenter`; a missing key raises
`KeyError` in Python, hence `Option`. -/
def PrimaryTable : Type := String → Option DataCenter

/-- `DistributedFileSystem.get_primary_server`: `none` models the
`KeyError` escaping from `self.primary_table[file_name]`. -/
def get_primary_server (st : SysState) (pt : PrimaryTable) (name : String) : Option Server :=
  (pt name).map st.server

/-- `DistributedFileSystem.get_best_server_for_read`, returning the data
center of the chosen server (which identifies the Python object
uniquely): the preferred server when available, otherwise the first
available server in enumeration order. -/
def get_best_server_for_read (st : SysState) (preferred : DataCenter) : Option DataCenter :=
  if (st.server preferred).is_available then some preferred
  else allDataCenters.find? (fun dc => (st.server dc).is_available)

/-- `DistributedFileSystem.read_file`: outer `none` models the
`RuntimeError` raised when no replica is available; the inner option is
the own `read_file` result of the chosen server. -/
def dfs_read_file (st : SysState) (name : String) (preferred : DataCenter) :
    Option (Option FileVersion) :=
  match get_best_server_for_read st preferred with
  | none => none
  | some dc => some ((st.server dc).read_file name)

/-- `len(available_servers)` in `write_file_with_quorum`. -/
def quorum_size (st : SysState) : Nat :=
  (allDataCenters.filter (fun dc => (st.server dc).is_available)).length

/-- One step of the invalidation fan-out: invoke the callback of client
`i` (out-of-range indices cannot occur in the Python program). -/
def notifyClient (cs : List Client) (i : Nat) (name : String) : List Client :=
  match cs[i]? with
  | some c => cs.set i (c.invalidate_cache_entry name)
  | none => cs

/-- `Server.invalidate_caches`, lifted to the global state because the
callbacks mutate client caches: invoke every subscribed callback for the
file, in subscription order, with no availability check. -/
def invalidate_caches (st : SysState) (dc : DataCenter) (name : String) : SysState :=
  { st with
    clients := (invalidate_targets (st.server dc) name).foldl
      (fun cs i => notifyClient cs i name) st.clients }

/-- `DistributedFileSystem.write_file_with_quorum`.  `none` models the
`KeyError` from the primary lookup; otherwise the pair is the final state
and the boolean returned by the Python method. -/
def write_file_with_quorum (st : SysState) (pt : PrimaryTable) (name content : String) :
    Option (SysState × Bool) :=
  match pt name with
  | none => none
  | some pdc =>
    if quorum_size st < 2 then some (st, false)
    else
      let cv := match (st.server pdc).read_file name with
        | some fv => fv.version
        | none => 0
      let nv := cv + 1
      let st1 := st.updServer pdc (fun s => s.apply_update name content nv)
      let st2 := allDataCenters.foldl (fun acc dc =>
        if dc = pdc then acc
        else if (acc.server dc).is_available then
          acc.updServer dc (fun s => s.apply_update name content nv)
        else acc) st1
      some (invalidate_caches st2 pdc name, true)

/-- The refresh path of `Client.read_file` (fetch from the nearest
available replica, replace the cache entry, re-subscribe at the
primary).  `none` models either `RuntimeError`. -/
def client_refresh (st : SysState) (i : Nat) (c : Client) (pdc : DataCenter) (name : String) :
    Option (SysState × String) :=
  match dfs_read_file st name c.preferred_dc with
  | none => none
  | some none => none
  | some (some fv) =>
    let c' := { c with cache := alInsert name ⟨fv.content, fv.version, true⟩ c.cache }
    let st1 := { st with clients := st.clients.set i c' }
    some (st1.updServer pdc (fun s => s.register_cache_listener name i), fv.content)

/-- `Client.read_file` for the client at index `i`: serve from the cache
when the entry is valid and matches the current version of the primary
(an unreachable primary counts as version 0), else refresh. -/
def client_read_file (st : SysState) (pt : PrimaryTable) (i : Nat) (name : String) :
    Option (SysState × String) :=
  match st.clients[i]? with
  | none => none
  | some c =>
    match pt name with
    | none => none
    | some pdc =>
      let pvn := match (st.server pdc).read_file name with
        | some fv => fv.version
        | none => 0
      match alLookup name c.cache with
      | some e =>
        if e.valid = true ∧ e.version = pvn then some (st, e.content)
        else client_refresh st i c pdc name
      | none => client_refresh st i c pdc name

/-- `Client.write_file` for the client at index `i`: delegate to the
coordinator; on success re-read the primary and, when that read returns a
`FileVersion`, replace the local cache entry with it (when it does not,
the Python method prints a warning and leaves the cache alone). -/
def client_write_file (st : SysState) (pt : PrimaryTable) (i : Nat) (name content : String) :
    Option (SysState × Bool) :=
  match write_file_with_quorum st pt name content with
  | none => none
  | some (st1, false) => some (st1, false)
  | some (st1, true) =>
    match pt name with
    | none => none
    | some pdc =>
      match (st1.server pdc).read_file name with
      | none => some (st1, true)
      | some fv =>
        match st1.clients[i]? with
        | some c =>
          some ({ st1 with
            clients := st1.clients.set i
              { c with cache := alInsert name ⟨fv.content, fv.version, true⟩ c.cache } }, true)
        | none => some (st1, true)

/-- Administrative availability toggles (`bring_up` / `bring_down`)
applied to each server according to the target configuration `a`. -/
def set_availability (st : SysState) (a : DataCenter → Bool) : SysState :=
  { st with
    newYork := if a .NEW_YORK then st.newYork.bring_up else st.newYork.bring_down
    toronto := if a .TORONTO then st.toronto.bring_up else st.toronto.bring_down
    london := if a .LONDON then st.london.bring_up else st.london.bring_down }

/-- The (content, version) pair a server stores for a file, the view the
specification claims compare. -/
def fileData (s : Server) (name : String) : Option (String × Nat) :=
  (alLookup name s.files).map (fun fv => (fv.content, fv.version))

/-- The version a server stores for a file, with 0 meaning absent (the
convention of the specification and of the write path). -/
def versionOf (s : Server) (name : String) : Nat :=
  ((alLookup name s.files).map (fun fv => fv.version)).getD 0

/-- The new version number a quorum write computes: the current version of
the primary (down or absent reads as 0) plus one. -/
def new_version (st : SysState) (pdc : DataCenter) (name : String) : Nat :=
  (match (st.server pdc).read_file name with
   | some fv => fv.version
   | none => 0) + 1

/-- Relates two states that differ only in availability flags: files,
subscriber registries and client caches all agree.  This is what a
sequence of `bring_up` / `bring_down` calls can produce. -/
@[reducible] def TogglesOnly (st st' : SysState) : Prop :=
  st'.newYork.files = st.newYork.files ∧
  st'.newYork.cache_listeners = st.newYork.cache_listeners ∧
  st'.toronto.files = st.toronto.files ∧
  st'.toronto.cache_listeners = st.toronto.cache_listeners ∧
  st'.london.files = st.london.files ∧
  st'.london.cache_listeners = st.london.cache_listeners ∧
  st'.clients = st.clients

/-- One operation of a write sequence: the availability configuration in
effect for the write, then a quorum write of `content` to `file`. -/
structure WriteOp where
  avail : DataCenter → Bool
  file : String
  content : String

/-- Run one `WriteOp`: set availability, then perform the quorum write
(a `KeyError`, excluded by the hypotheses of every theorem below, leaves
the state of the toggles). -/
def doOp (pt : PrimaryTable) (st : SysState) (op : WriteOp) : SysState :=
  let st' := set_availability st op.avail
  match write_file_with_quorum st' pt op.file op.content with
  | some (st'', _) => st''
  | none => st'

/-- Run a sequence of write operations. -/
def runOps (pt : PrimaryTable) (st : SysState) (ops : List WriteOp) : SysState :=
  ops.foldl (doOp pt) st

/-! ### Concrete fixtures (used by witnesses and counterexamples)

A small system in the shape of src/main.py: every replica bootstraps file
"f" at version 1 with content "X", and "f" is assigned to the New York
primary. -/

/-- A server holding file "f" at version 1 with content "X". -/
def srvX : Server := ⟨[("f", ⟨"f", "X", 1⟩)], true, []⟩

/-- The same server, brought down. -/
def srvXdown : Server := { srvX with alive := false }

/-- Primary table assigning "f" to New York and nothing else. -/
def ptF : PrimaryTable := fun n => if n = "f" then some .NEW_YORK else none

/-- All three replicas up, no clients. -/
def stAllUp : SysState := ⟨srvX, srvX, srvX, []⟩

/-- All three replicas down. -/
def stAllDown : SysState := ⟨srvXdown, srvXdown, srvXdown, []⟩

/-- Only the New York replica up. -/
def stOneUp : SysState := ⟨srvX, srvXdown, srvXdown, []⟩

/-- Primary (New York) down, the two secondaries up. -/
def stPrimaryDown : SysState := ⟨srvXdown, srvX, srvX, []⟩

/-- The state produced by a successful quorum write of "N" on `stAllUp`. -/
def c1wst : SysState :=
  ((write_file_with_quorum stAllUp ptF "f" "N").getD (stAllUp, false)).1

/-- A write with every replica up. -/
def opAllUp : WriteOp := ⟨fun _ => true, "f", "A"⟩

/-- A write with the New York primary down. -/
def opNYDown : WriteOp := ⟨fun dc => decide (dc ≠ DataCenter.NEW_YORK), "f", "B"⟩

/-- Client 0 prefers Toronto, client 1 prefers New York. -/
def stTwoClients : SysState := ⟨srvX, srvX, srvX, [⟨.TORONTO, []⟩, ⟨.NEW_YORK, []⟩]⟩

/-- After client 0 reads "f" (cache populated, subscribed at the primary). -/
def c4st1 : SysState := ((client_read_file stTwoClients ptF 0 "f").getD (stTwoClients, "")).1

/-- Toronto goes down. -/
def c4st2 : SysState := c4st1.updServer .TORONTO Server.bring_down

/-- Client 1 writes "Y" (succeeds: New York and London are up). -/
def c4st3 : SysState := ((client_write_file c4st2 ptF 1 "f" "Y").getD (c4st2, false)).1

/-- Toronto comes back up, still holding the stale version. -/
def c4st4 : SysState := c4st3.updServer .TORONTO Server.bring_up

/-- Both clients prefer New York (the C4 witness scenario). -/
def stWit4 : SysState := ⟨srvX, srvX, srvX, [⟨.NEW_YORK, []⟩, ⟨.NEW_YORK, []⟩]⟩

/-- After client 0 reads "f". -/
def w4st1 : SysState := ((client_read_file stWit4 ptF 0 "f").getD (stWit4, "")).1

/-- Toronto down. -/
def w4st2 : SysState := w4st1.updServer .TORONTO Server.bring_down

/-- Client 1 writes "Y". -/
def w4st3 : SysState := ((client_write_file w4st2 ptF 1 "f" "Y").getD (w4st2, false)).1

/-- Toronto back up. -/
def w4st4 : SysState := w4st3.updServer .TORONTO Server.bring_up

/-- The state after the second read of client 0. -/
def w4st5 : SysState := ((client_read_file w4st4 ptF 0 "f").getD (w4st4, "")).1

/-- The content the second read of client 0 returns. -/
def w4out : String := ((client_read_file w4st4 ptF 0 "f").getD (w4st4, "")).2

/-- Primary down with one client whose cache is empty. -/
def stC7cex : SysState := ⟨srvXdown, srvX, srvX, [⟨.NEW_YORK, []⟩]⟩

/-- All replicas up, one client holding a valid cache entry for "f". -/
def stC7wit : SysState := ⟨srvX, srvX, srvX, [⟨.NEW_YORK, [("f", ⟨"X", 1, true⟩)]⟩]⟩

/-- The state after the quorum write of "Y" on `stC7wit`. -/
def c7st1 : SysState :=
  ((write_file_with_quorum stC7wit ptF "f" "Y").getD (stC7wit, false)).1

/-- The file version the primary reports after that write. -/
def c7fv : FileVersion := ((c7st1.server .NEW_YORK).read_file "f").getD ⟨"", "", 0⟩

/-- The client object after that write. -/
def c7cl : Client := c7st1.clients.getD 0 ⟨.NEW_YORK, []⟩

/-- An unavailable New York replica with one subscriber for "f", plus a
client with a valid cache entry for "f". -/
def stC10fix : SysState :=
  ⟨{ srvXdown with cache_listeners := [("f", [0])] }, srvX, srvX,
   [⟨.NEW_YORK, [("f", ⟨"X", 1, true⟩)]⟩]⟩

/-! ### Association-list lemmas -/

theorem alLookup_alInsert_self {α : Type} (k : String) (v : α) (l : List (String × α)) :
    alLookup k (alInsert k v l) = some v := by
  induction l with
  | nil => simp [alInsert, alLookup]
  | cons p rest ih =>
    obtain ⟨k', v'⟩ := p
    by_cases h : k' = k <;> simp [alInsert, alLookup, h, ih]

theorem alLookup_alInsert_ne {α : Type} {k k' : String} (h : k' ≠ k) (v : α)
    (l : List (String × α)) : alLookup k' (alInsert k v l) = alLookup k' l := by
  induction l with
  | nil => simp [alInsert, alLookup, Ne.symm h]
  | cons p rest ih =>
    obtain ⟨k₀, v₀⟩ := p
    by_cases hk : k₀ = k
    · subst hk
      simp [alInsert, alLookup, Ne.symm h]
    · by_cases hk' : k₀ = k' <;> simp [alInsert, alLookup, hk, hk', ih, h]

/-! ### Server-level lemmas -/

@[simp] theorem Server.apply_update_alive (s : Server) (n c : String) (v : Nat) :
    (s.apply_update n c v).alive = s.alive := by
  unfold Server.apply_update Server.is_available
  split
  · split <;> rfl
  · rfl

@[simp] theorem Server.apply_update_listeners (s : Server) (n c : String) (v : Nat) :
    (s.apply_update n c v).cache_listeners = s.cache_listeners := by
  unfold Server.apply_update Server.is_available
  split
  · split <;> rfl
  · rfl

theorem Server.apply_update_dead {s : Server} (h : s.alive = false) (n c : String) (v : Nat) :
    s.apply_update n c v = s := by
  unfold Server.apply_update Server.is_available
  simp [h]

theorem fileData_apply_update_self {s : Server} (h : s.alive = true) (n c : String) (v : Nat) :
    fileData (s.apply_update n c v) n = some (c, v) := by
  unfold Server.apply_update Server.is_available fileData
  rcases hl : alLookup n s.files with _ | fv <;>
    simp [h, hl, alLookup_alInsert_self]

theorem alLookup_apply_update_ne {s : Server} {m n : String} (h : m ≠ n) (c : String) (v : Nat) :
    alLookup m (s.apply_update n c v).files = alLookup m s.files := by
  unfold Server.apply_update Server.is_available
  split
  · split <;> simp [alLookup_alInsert_ne h]
  · rfl

theorem Server.read_file_dead {s : Server} (h : s.alive = false) (n : String) :
    s.read_file n = none := by
  simp [Server.read_file, Server.is_available, h]

theorem Server.read_file_alive {s : Server} (h : s.alive = true) (n : String) :
    s.read_file n = alLookup n s.files := by
  simp [Server.read_file, Server.is_available, h]

@[simp] theorem Server.register_files (s : Server) (n : String) (cb : Nat) :
    (s.register_cache_listener n cb).files = s.files := by
  unfold Server.register_cache_listener
  split <;> rfl

@[simp] theorem Server.register_alive (s : Server) (n : String) (cb : Nat) :
    (s.register_cache_listener n cb).alive = s.alive := by
  unfold Server.register_cache_listener
  split <;> rfl

theorem register_mem_targets (s : Server) (n : String) (cb : Nat) :
    cb ∈ invalidate_targets (s.register_cache_listener n cb) n := by
  unfold Server.register_cache_listener invalidate_targets
  split
  · assumption
  · simp [alLookup_alInsert_self]

/-! ### State projection lemmas -/

@[simp] theorem SysState.server_NY (st : SysState) : st.server .NEW_YORK = st.newYork := rfl

@[simp] theorem SysState.server_TO (st : SysState) : st.server .TORONTO = st.toronto := rfl

@[simp] theorem SysState.server_LD (st : SysState) : st.server .LONDON = st.london := rfl

theorem invalidate_caches_server (st : SysState) (dc : DataCenter) (n : String)
    (dc' : DataCenter) : ((invalidate_caches st dc n).server dc') = st.server dc' := by
  cases dc' <;> rfl

@[simp] theorem set_availability_files (st : SysState) (a : DataCenter → Bool)
    (dc : DataCenter) : ((set_availability st a).server dc).files = (st.server dc).files := by
  cases dc <;> simp [set_availability, Server.bring_up, Server.bring_down] <;> split <;> rfl

@[simp] theorem set_availability_alive (st : SysState) (a : DataCenter → Bool)
    (dc : DataCenter) : ((set_availability st a).server dc).alive = a dc := by
  cases dc <;> simp [set_availability, Server.bring_up, Server.bring_down] <;> split <;>
    simp_all

/-! ### Characterization of `write_file_with_quorum` -/

theorem write_fail_of_no_quorum {st : SysState} {pt : PrimaryTable} {name content : String}
    {pdc : DataCenter} (hpt : pt name = some pdc) (hq : quorum_size st < 2) :
    write_file_with_quorum st pt name content = some (st, false) := by
  simp [write_file_with_quorum, hpt, hq]

theorem write_success_of_quorum {st : SysState} {pt : PrimaryTable} {name content : String}
    {pdc : DataCenter} (hpt : pt name = some pdc) (hq : ¬ quorum_size st < 2) :
    ∃ st', write_file_with_quorum st pt name content = some (st', true) := by
  simp only [write_file_with_quorum, hpt]
  rw [if_neg hq]
  exact ⟨_, rfl⟩

theorem write_state_of_false {st st' : SysState} {pt : PrimaryTable} {name content : String}
    (hw : write_file_with_quorum st pt name content = some (st', false)) : st' = st := by
  unfold write_file_with_quorum at hw
  rcases hpt : pt name with _ | pdc <;> simp [hpt] at hw
  split at hw <;> simp_all

theorem write_alive_preserved {st st' : SysState} {pt : PrimaryTable} {name content : String}
    {pdc : DataCenter} {b : Bool} (hpt : pt name = some pdc)
    (hw : write_file_with_quorum st pt name content = some (st', b)) (dc : DataCenter) :
    (st'.server dc).alive = (st.server dc).alive := by
  simp only [write_file_with_quorum, hpt] at hw
  split at hw
  · simp only [Option.some.injEq, Prod.mk.injEq] at hw
    obtain ⟨rfl, rfl⟩ := hw
    rfl
  · simp only [Option.some.injEq, Prod.mk.injEq] at hw
    obtain ⟨rfl, rfl⟩ := hw
    rw [invalidate_caches_server]
    cases pdc <;> cases dc <;>
      simp [allDataCenters, SysState.updServer, SysState.setServer] <;>
      split_ifs <;> simp

theorem write_listeners_preserved {st st' : SysState} {pt : PrimaryTable}
    {name content : String} {pdc : DataCenter} {b : Bool} (hpt : pt name = some pdc)
    (hw : write_file_with_quorum st pt name content = some (st', b)) (dc : DataCenter) :
    (st'.server dc).cache_listeners = (st.server dc).cache_listeners := by
  simp only [write_file_with_quorum, hpt] at hw
  split at hw
  · simp only [Option.some.injEq, Prod.mk.injEq] at hw
    obtain ⟨rfl, rfl⟩ := hw
    rfl
  · simp only [Option.some.injEq, Prod.mk.injEq] at hw
    obtain ⟨rfl, rfl⟩ := hw
    rw [invalidate_caches_server]
    cases pdc <;> cases dc <;>
      simp [allDataCenters, SysState.updServer, SysState.setServer] <;>
      split_ifs <;> simp

theorem write_files_of_dead {st st' : SysState} {pt : PrimaryTable} {name content : String}
    {pdc : DataCenter} {b : Bool} (hpt : pt name = some pdc)
    (hw : write_file_with_quorum st pt name content = some (st', b)) (dc : DataCenter)
    (hdead : (st.server dc).alive = false) :
    (st'.server dc).files = (st.server dc).files := by
  simp only [write_file_with_quorum, hpt] at hw
  split at hw
  · simp only [Option.some.injEq, Prod.mk.injEq] at hw
    obtain ⟨rfl, rfl⟩ := hw
    rfl
  · simp only [Option.some.injEq, Prod.mk.injEq] at hw
    obtain ⟨rfl, rfl⟩ := hw
    rw [invalidate_caches_server]
    cases pdc <;> cases dc <;>
      simp_all [allDataCenters, SysState.updServer, SysState.setServer,
        Server.is_available, Server.apply_update_dead] <;>
      split_ifs <;> simp_all [Server.apply_update_dead]

theorem write_fileData_of_alive {st st' : SysState} {pt : PrimaryTable} {name content : String}
    {pdc : DataCenter} (hpt : pt name = some pdc)
    (hw : write_file_with_quorum st pt name content = some (st', true)) (dc : DataCenter)
    (halive : (st.server dc).alive = true) :
    fileData (st'.server dc) name = some (content, new_version st pdc name) := by
  simp only [write_file_with_quorum, hpt] at hw
  split at hw
  · simp at hw
  · simp only [Option.some.injEq, Prod.mk.injEq] at hw
    obtain ⟨rfl, _⟩ := hw
    rw [invalidate_caches_server]
    cases pdc <;> cases dc <;>
      simp_all [allDataCenters, new_version, SysState.updServer, SysState.setServer,
        Server.is_available] <;>
      split_ifs <;>
      simp_all [fileData_apply_update_self, Server.apply_update_dead]

theorem write_other_file {st st' : SysState} {pt : PrimaryTable} {name content m : String}
    {pdc : DataCenter} {b : Bool} (hpt : pt name = some pdc) (hm : m ≠ name)
    (hw : write_file_with_quorum st pt name content = some (st', b)) (dc : DataCenter) :
    alLookup m (st'.server dc).files = alLookup m (st.server dc).files := by
  simp only [write_file_with_quorum, hpt] at hw
  split at hw
  · simp only [Option.some.injEq, Prod.mk.injEq] at hw
    obtain ⟨rfl, rfl⟩ := hw
    rfl
  · simp only [Option.some.injEq, Prod.mk.injEq] at hw
    obtain ⟨rfl, rfl⟩ := hw
    rw [invalidate_caches_server]
    cases pdc <;> cases dc <;>
      simp [allDataCenters, SysState.updServer, SysState.setServer] <;>
      split_ifs <;> simp [alLookup_apply_update_ne hm]

theorem write_clients_of_success {st st' : SysState} {pt : PrimaryTable}
    {name content : String} {pdc : DataCenter} (hpt : pt name = some pdc)
    (hw : write_file_with_quorum st pt name content = some (st', true)) :
    st'.clients = (invalidate_targets (st.server pdc) name).foldl
      (fun cs i => notifyClient cs i name) st.clients := by
  simp only [write_file_with_quorum, hpt] at hw
  split at hw
  · simp at hw
  · simp only [Option.some.injEq, Prod.mk.injEq] at hw
    obtain ⟨rfl, _⟩ := hw
    unfold invalidate_caches invalidate_targets
    cases pdc <;>
      simp [allDataCenters, SysState.updServer, SysState.setServer] <;>
      split_ifs <;> simp

/-! ### Invalidation fan-out lemmas -/

theorem alInsert_alInsert {α : Type} (k : String) (v v' : α) (l : List (String × α)) :
    alInsert k v' (alInsert k v l) = alInsert k v' l := by
  induction l with
  | nil => simp [alInsert]
  | cons p rest ih =>
    obtain ⟨k₀, v₀⟩ := p
    by_cases hk : k₀ = k <;> simp [alInsert, hk, ih]

theorem invalidate_entry_idem (c : Client) (n : String) :
    (c.invalidate_cache_entry n).invalidate_cache_entry n = c.invalidate_cache_entry n := by
  unfold Client.invalidate_cache_entry
  rcases h : alLookup n c.cache with _ | e
  · simp [h]
  · simp [h, alLookup_alInsert_self, alInsert_alInsert]

theorem notifyClient_getElem_ne (cs : List Client) (j i : Nat) (n : String) (hij : i ≠ j) :
    (notifyClient cs j n)[i]? = cs[i]? := by
  unfold notifyClient
  rcases h : cs[j]? with _ | c
  · rfl
  · exact List.getElem?_set_ne (Ne.symm hij)

theorem notifyClient_getElem_self (cs : List Client) (i : Nat) (n : String) :
    (notifyClient cs i n)[i]? = (cs[i]?).map (fun c => c.invalidate_cache_entry n) := by
  unfold notifyClient
  rcases h : cs[i]? with _ | c
  · simp [h]
  · have hi : i < cs.length := by
      by_contra hlt
      simp [List.getElem?_eq_none (Nat.le_of_not_lt hlt)] at h
    simp [h, List.getElem?_set_eq_of_lt _ hi]

theorem foldl_notify_not_mem {l : List Nat} {i : Nat} (hni : i ∉ l) (n : String)
    (cs : List Client) :
    (l.foldl (fun a j => notifyClient a j n) cs)[i]? = cs[i]? := by
  induction l generalizing cs with
  | nil => rfl
  | cons j t ih =>
    have hij : i ≠ j := fun h => hni (h ▸ List.mem_cons_self j t)
    have hnt : i ∉ t := fun h => hni (List.mem_cons_of_mem j h)
    simp only [List.foldl_cons]
    rw [ih hnt, notifyClient_getElem_ne _ _ _ _ hij]

theorem foldl_notify_mem {l : List Nat} {i : Nat} (hmem : i ∈ l) (n : String)
    (cs : List Client) :
    (l.foldl (fun a j => notifyClient a j n) cs)[i]? =
      (cs[i]?).map (fun c => c.invalidate_cache_entry n) := by
  induction l generalizing cs with
  | nil => cases hmem
  | cons j t ih =>
    simp only [List.foldl_cons]
    by_cases hij : i = j
    · subst hij
      by_cases hti : i ∈ t
      · rw [ih hti, notifyClient_getElem_self]
        rcases h : cs[i]? with _ | c <;> simp [invalidate_entry_idem]
      · rw [foldl_notify_not_mem hti, notifyClient_getElem_self]
    · have hti : i ∈ t := by
        rcases List.mem_cons.mp hmem with h | h
        · exact absurd h hij
        · exact h
      rw [ih hti, notifyClient_getElem_ne _ _ _ _ hij]

/-! ### Claim C2 -/

/-- C2: for every file with an assigned primary and every state in which
fewer than 2 of the 3 replicas are available, `write_file_with_quorum`
returns `false` (no exception) and returns the state completely
unchanged: every replica keeps its stored files (contents and versions)
and its subscriber sets, and every client cache is untouched. -/
theorem C2_quorum_not_met (st : SysState) (pt : PrimaryTable) (f c : String)
    (pdc : DataCenter) (hpt : pt f = some pdc) (hq : quorum_size st < 2) :
    write_file_with_quorum st pt f c = some (st, false) :=
  write_fail_of_no_quorum hpt hq

/-- Witness for C2 on a concrete state with a single available replica. -/
theorem C2_witness :
    write_file_with_quorum stOneUp ptF "f" "Z" = some (stOneUp, false) :=
  C2_quorum_not_met stOneUp ptF "f" "Z" .NEW_YORK (by decide) (by decide)

/-! ### Claim C5 -/

/-- C5: subscribing the same callback twice for the same file leaves the
replica in exactly the state of subscribing it once, and a single
invalidation push then invokes the callback exactly once (the invocation
list of `invalidate_caches` contains it once, not twice). -/
theorem C5_idempotent_subscribe (s : Server) (f : String) (h : Nat) :
    (s.register_cache_listener f h).register_cache_listener f h =
      s.register_cache_listener f h ∧
    (h ∉ invalidate_targets s f →
      (invalidate_targets
          ((s.register_cache_listener f h).register_cache_listener f h) f).count h = 1) := by
  constructor
  · unfold Server.register_cache_listener
    by_cases hmem : h ∈ (alLookup f s.cache_listeners).getD []
    · simp [hmem]
    · simp [hmem, alLookup_alInsert_self]
  · intro hni
    unfold invalidate_targets at hni
    unfold Server.register_cache_listener invalidate_targets
    simp [hni, alLookup_alInsert_self, List.count_append,
      List.count_eq_zero.mpr hni]

/-- Witness for C5 on a concrete replica with no prior subscriber. -/
theorem C5_witness :
    ((srvX.register_cache_listener "f" 0).register_cache_listener "f" 0 =
      srvX.register_cache_listener "f" 0) ∧
    (invalidate_targets
        ((srvX.register_cache_listener "f" 0).register_cache_listener "f" 0) "f").count 0 = 1 :=
  ⟨(C5_idempotent_subscribe srvX "f" 0).1,
   (C5_idempotent_subscribe srvX "f" 0).2 (by decide)⟩

/-! ### Claim C6 -/

/-- C6: `get_best_server_for_read` returns the preferred replica when it
is available; when the preferred replica is unavailable, any replica it
returns is available and earliest in the fixed enumeration order among
the available ones; and it returns none exactly when no replica is
available at all. -/
theorem C6_best_server_policy (st : SysState) (pref : DataCenter) :
    ((st.server pref).is_available = true →
      get_best_server_for_read st pref = some pref) ∧
    ((st.server pref).is_available = false →
      ∀ dc, get_best_server_for_read st pref = some dc →
        (st.server dc).is_available = true ∧
        ∀ dc', (st.server dc').is_available = true → dcIndex dc ≤ dcIndex dc') ∧
    (get_best_server_for_read st pref = none ↔
      ∀ dc, (st.server dc).is_available = false) := by
  refine ⟨?_, ?_, ?_⟩
  · intro h
    simp [get_best_server_for_read, h]
  · intro h dc hdc
    rw [get_best_server_for_read, if_neg (by simp [h])] at hdc
    refine ⟨by simpa using List.find?_some hdc, ?_⟩
    intro dc' hdc'
    cases hN : st.newYork.alive <;> cases hT : st.toronto.alive <;>
      cases hL : st.london.alive <;> cases dc' <;> cases dc <;>
      simp_all [allDataCenters, Server.is_available, dcIndex, List.find?]
  · constructor
    · intro hnone dc
      rw [get_best_server_for_read] at hnone
      by_cases h : (st.server pref).is_available
      · simp [h] at hnone
      · have hall := List.find?_eq_none.mp (by simpa [h] using hnone)
        have hdc : dc ∈ allDataCenters := by cases dc <;> simp [allDataCenters]
        simpa using hall dc hdc
    · intro hall
      rw [get_best_server_for_read, if_neg (by simp [hall pref])]
      exact List.find?_eq_none.mpr (fun dc _ => by simp [hall dc])

/-- Witness for C6: the preferred replica is chosen when up, and the
result is none when every replica is down. -/
theorem C6_witness :
    get_best_server_for_read stAllUp .NEW_YORK = some .NEW_YORK ∧
    get_best_server_for_read stAllDown .NEW_YORK = none :=
  ⟨(C6_best_server_policy stAllUp .NEW_YORK).1 (by decide),
   (C6_best_server_policy stAllDown .NEW_YORK).2.2.mpr (fun dc => by cases dc <;> rfl)⟩

/-! ### Claim C8 -/

/-- C8: `get_primary_server` fails (the `KeyError` of the primary-table
lookup, modelled as `none`) exactly when the file has no entry in the
primary table, and otherwise returns the replica of the assigned primary
site. -/
theorem C8_primary_lookup (st : SysState) (pt : PrimaryTable) (f : String) :
    (get_primary_server st pt f = none ↔ pt f = none) ∧
    (∀ dc, pt f = some dc → get_primary_server st pt f = some (st.server dc)) := by
  constructor
  · simp [get_primary_server]
  · intro dc h
    simp [get_primary_server, h]

/-- Witness for C8: an unassigned file fails, an assigned one returns the
replica at its primary site. -/
theorem C8_witness :
    get_primary_server stAllUp ptF "g" = none ∧
    get_primary_server stAllUp ptF "f" = some (stAllUp.server .NEW_YORK) :=
  ⟨(C8_primary_lookup stAllUp ptF "g").1.mpr (by decide),
   (C8_primary_lookup stAllUp ptF "f").2 .NEW_YORK (by decide)⟩

/-! ### Version bookkeeping lemmas -/

theorem versionOf_of_fileData {s : Server} {n c : String} {v : Nat}
    (h : fileData s n = some (c, v)) : versionOf s n = v := by
  unfold fileData at h
  unfold versionOf
  rcases hl : alLookup n s.files with _ | fv <;> simp [hl] at h ⊢
  exact h.2

theorem new_version_of_alive {st : SysState} {pdc : DataCenter} {f : String}
    (h : (st.server pdc).alive = true) :
    new_version st pdc f = versionOf (st.server pdc) f + 1 := by
  unfold new_version versionOf
  rw [Server.read_file_alive h]
  rcases hl : alLookup f (st.server pdc).files with _ | fv <;> simp [hl]

theorem write_none_of_no_primary {st : SysState} {pt : PrimaryTable} {name content : String}
    (h : pt name = none) : write_file_with_quorum st pt name content = none := by
  simp [write_file_with_quorum, h]

/-! ### Claim C9 -/

/-- C9: with the primary for `f` unavailable but both other replicas
available, the quorum write still succeeds, computes version
`0 + 1 = 1` (the failed primary read counts as version 0, ignoring the
versions the secondaries store), leaves the stored files of the primary
unchanged, and applies `(content, 1)` to both secondaries. -/
theorem C9_write_with_primary_down (st : SysState) (pt : PrimaryTable) (f c : String)
    (pdc : DataCenter) (hpt : pt f = some pdc)
    (hdead : (st.server pdc).alive = false)
    (hup : ∀ dc, dc ≠ pdc → (st.server dc).alive = true) :
    ∃ st', write_file_with_quorum st pt f c = some (st', true) ∧
      (st'.server pdc).files = (st.server pdc).files ∧
      ∀ dc, dc ≠ pdc → fileData (st'.server dc) f = some (c, 1) := by
  have hq : ¬ quorum_size st < 2 := by
    cases pdc with
    | NEW_YORK =>
      have h1 : st.newYork.alive = false := hdead
      have h2 : st.toronto.alive = true := hup .TORONTO (by decide)
      have h3 : st.london.alive = true := hup .LONDON (by decide)
      simp [quorum_size, allDataCenters, List.filter_cons, Server.is_available, h1, h2, h3]
    | TORONTO =>
      have h1 : st.toronto.alive = false := hdead
      have h2 : st.newYork.alive = true := hup .NEW_YORK (by decide)
      have h3 : st.london.alive = true := hup .LONDON (by decide)
      simp [quorum_size, allDataCenters, List.filter_cons, Server.is_available, h1, h2, h3]
    | LONDON =>
      have h1 : st.london.alive = false := hdead
      have h2 : st.newYork.alive = true := hup .NEW_YORK (by decide)
      have h3 : st.toronto.alive = true := hup .TORONTO (by decide)
      simp [quorum_size, allDataCenters, List.filter_cons, Server.is_available, h1, h2, h3]
  obtain ⟨st', hw⟩ := write_success_of_quorum hpt hq
  refine ⟨st', hw, write_files_of_dead hpt hw pdc hdead, ?_⟩
  intro dc hdc
  have hfd := write_fileData_of_alive hpt hw dc (hup dc hdc)
  rwa [show new_version st pdc f = 1 by
    unfold new_version
    rw [Server.read_file_dead hdead]] at hfd

/-- Witness for C9 on a concrete state with the New York primary down. -/
theorem C9_witness :
    ∃ st', write_file_with_quorum stPrimaryDown ptF "f" "Y" = some (st', true) ∧
      (st'.server .NEW_YORK).files = (stPrimaryDown.server .NEW_YORK).files ∧
      fileData (st'.server .TORONTO) "f" = some ("Y", 1) := by
  obtain ⟨st', h1, h2, h3⟩ :=
    C9_write_with_primary_down stPrimaryDown ptF "f" "Y" .NEW_YORK (by decide) (by decide)
      (fun dc h => by cases dc
                      · exact absurd rfl h
                      · rfl
                      · rfl)
  exact ⟨st', h1, h2, h3 .TORONTO (by decide)⟩

/-! ### Claim C10 -/

/-- C10: `register_cache_listener` and `invalidate_caches` never consult
the availability flag: on an unavailable replica, reads and updates fail
(`none` and silent no-op), yet subscribing still records the callback and
an invalidation push still invokes the callback of every subscriber,
marking the matching client cache entries invalid. -/
theorem C10_subscription_ignores_availability (st : SysState) (dc : DataCenter)
    (n c : String) (v : Nat) (cb : Nat) (hdead : (st.server dc).alive = false) :
    (st.server dc).read_file n = none ∧
    (st.server dc).apply_update n c v = st.server dc ∧
    cb ∈ invalidate_targets ((st.server dc).register_cache_listener n cb) n ∧
    (∀ i, i ∈ invalidate_targets (st.server dc) n →
      (invalidate_caches st dc n).clients[i]? =
        (st.clients[i]?).map (fun cl => cl.invalidate_cache_entry n)) := by
  refine ⟨Server.read_file_dead hdead n, Server.apply_update_dead hdead n c v,
    register_mem_targets _ n cb, ?_⟩
  intro i hi
  unfold invalidate_caches
  simpa using foldl_notify_mem hi n st.clients

/-- Witness for C10 on a concrete unavailable replica with a subscriber. -/
theorem C10_witness :
    (stC10fix.server .NEW_YORK).read_file "f" = none ∧
    (stC10fix.server .NEW_YORK).apply_update "f" "Y" 2 = stC10fix.server .NEW_YORK ∧
    1 ∈ invalidate_targets
        ((stC10fix.server .NEW_YORK).register_cache_listener "f" 1) "f" ∧
    (invalidate_caches stC10fix .NEW_YORK "f").clients[0]? =
      (stC10fix.clients[0]?).map (fun cl => cl.invalidate_cache_entry "f") :=
  ⟨(C10_subscription_ignores_availability stC10fix .NEW_YORK "f" "Y" 2 1 (by decide)).1,
   (C10_subscription_ignores_availability stC10fix .NEW_YORK "f" "Y" 2 1 (by decide)).2.1,
   (C10_subscription_ignores_availability stC10fix .NEW_YORK "f" "Y" 2 1 (by decide)).2.2.1,
   (C10_subscription_ignores_availability stC10fix .NEW_YORK "f" "Y" 2 1 (by decide)).2.2.2
     0 (by decide)⟩

/-! ### Claim C1 -/

/-- C1 as stated is refuted here: with the primary down and the two
secondaries up, the write commits (quorum 2 of 3), yet the primary still
stores version 1 (not previous + 1 = 2), and the available Toronto
replica ends with `("Y", 1)` while the primary still holds `("X", 1)`. -/
theorem C1_counterexample :
    (write_file_with_quorum stPrimaryDown ptF "f" "Y").map
        (fun p => (p.2, versionOf (p.1.server .NEW_YORK) "f",
          fileData (p.1.server .TORONTO) "f", fileData (p.1.server .NEW_YORK) "f")) =
      some (true, 1, some ("Y", 1), some ("X", 1)) ∧ (1 : Nat) ≠ 1 + 1 := by
  decide

/-- C1 amended: when additionally the primary replica is available during
the write, a successful `write_file_with_quorum` advances the primary to
previous version + 1, and every replica that was available during the
write stores the same (content, version) pair as the primary. -/
theorem C1_amended_quorum_write (st st' : SysState) (pt : PrimaryTable) (f c : String)
    (pdc : DataCenter) (hpt : pt f = some pdc)
    (halive : (st.server pdc).alive = true)
    (hw : write_file_with_quorum st pt f c = some (st', true)) :
    versionOf (st'.server pdc) f = versionOf (st.server pdc) f + 1 ∧
    ∀ dc, (st.server dc).alive = true →
      fileData (st'.server dc) f = fileData (st'.server pdc) f := by
  have hp := write_fileData_of_alive hpt hw pdc halive
  constructor
  · rw [versionOf_of_fileData hp, new_version_of_alive halive]
  · intro dc hdc
    rw [write_fileData_of_alive hpt hw dc hdc, hp]

/-- Witness for the amended C1 on a concrete all-up write. -/
theorem C1_witness :
    versionOf (c1wst.server .NEW_YORK) "f" =
      versionOf (stAllUp.server .NEW_YORK) "f" + 1 ∧
    fileData (c1wst.server .TORONTO) "f" = fileData (c1wst.server .NEW_YORK) "f" :=
  ⟨(C1_amended_quorum_write stAllUp c1wst ptF "f" "N" .NEW_YORK (by decide) (by decide)
      (by decide)).1,
   (C1_amended_quorum_write stAllUp c1wst ptF "f" "N" .NEW_YORK (by decide) (by decide)
      (by decide)).2 .TORONTO (by decide)⟩

/-! ### Claim C7 -/

/-- C7 as stated is refuted here: with the primary down and the two
secondaries up, the coordinator write succeeds but the post-write primary
read returns nothing, so `write_file` does NOT replace the cache entry of
the writer (the cache still has no entry for "f" although the write
reported success). -/
theorem C7_counterexample :
    (client_write_file stC7cex ptF 0 "f" "Y").map
        (fun p => (p.2, alLookup "f" ((p.1.clients.getD 0 ⟨.NEW_YORK, []⟩).cache))) =
      some (true, none) := by
  decide

/-- C7 amended: on coordinator failure, `write_file` returns the state of
the failed write unchanged (the whole state, hence every cache entry, is
exactly as before); on success, if the post-write primary read returns a
`FileVersion` the client replaces its cache entry for the file with that
(content, version); if the primary cannot be read after a successful
write, the cache is left as the write left it (no replacement). -/
theorem C7_amended_write_cache (st : SysState) (pt : PrimaryTable) (i : Nat)
    (f c : String) (pdc : DataCenter) (hpt : pt f = some pdc) :
    (quorum_size st < 2 → client_write_file st pt i f c = some (st, false)) ∧
    (∀ st1 fv cl, write_file_with_quorum st pt f c = some (st1, true) →
      (st1.server pdc).read_file f = some fv → st1.clients[i]? = some cl →
      client_write_file st pt i f c =
        some ({ st1 with clients := st1.clients.set i ({ cl with cache := alInsert f ⟨fv.content, fv.version, true⟩ cl.cache }) }, true)) ∧
    (∀ st1, write_file_with_quorum st pt f c = some (st1, true) →
      (st1.server pdc).read_file f = none →
      client_write_file st pt i f c = some (st1, true)) := by
  refine ⟨?_, ?_, ?_⟩
  · intro hq
    unfold client_write_file
    rw [write_fail_of_no_quorum hpt hq]
  · intro st1 fv cl hw hrf hcl
    unfold client_write_file
    simp only [hw, hpt, hrf, hcl]
  · intro st1 hw hrf
    unfold client_write_file
    simp only [hw, hpt, hrf]

/-- Witness for the amended C7: a failed write leaves the state intact,
and a successful write with a readable primary replaces the entry. -/
theorem C7_witness :
    client_write_file stOneUp ptF 0 "f" "Z" = some (stOneUp, false) ∧
    client_write_file stC7wit ptF 0 "f" "Y" =
      some ({ c7st1 with clients := c7st1.clients.set 0 ({ c7cl with cache := alInsert "f" ⟨c7fv.content, c7fv.version, true⟩ c7cl.cache }) }, true) :=
  ⟨(C7_amended_write_cache stOneUp ptF 0 "f" "Z" .NEW_YORK (by decide)).1 (by decide),
   (C7_amended_write_cache stC7wit ptF 0 "f" "Y" .NEW_YORK (by decide)).2.1 c7st1 c7fv c7cl
     (by decide) (by decide) (by decide)⟩

/-! ### Claim C3 -/

theorem doOp_version_facts (pt : PrimaryTable) (f : String) (pdc : DataCenter)
    (hpt : pt f = some pdc) (st : SysState) (op : WriteOp)
    (hgood : op.file = f → op.avail pdc = true)
    (hInv : ∀ dc, versionOf (st.server dc) f ≤ versionOf (st.server pdc) f) :
    (∀ dc, versionOf (st.server dc) f ≤ versionOf ((doOp pt st op).server dc) f) ∧
    (∀ dc, versionOf ((doOp pt st op).server dc) f ≤
      versionOf ((doOp pt st op).server pdc) f) := by
  have hVA : ∀ dc, versionOf ((set_availability st op.avail).server dc) f
      = versionOf (st.server dc) f := by
    intro dc
    unfold versionOf
    rw [set_availability_files]
  unfold doOp
  rcases hw : write_file_with_quorum (set_availability st op.avail) pt op.file op.content
    with _ | ⟨st', b⟩ <;> simp only [hw]
  · exact ⟨fun dc => le_of_eq (hVA dc).symm,
      fun dc => by rw [hVA dc, hVA pdc]; exact hInv dc⟩
  · by_cases hf : op.file = f
    · subst hf
      cases b
      · have hst : st' = set_availability st op.avail := write_state_of_false hw
        subst hst
        exact ⟨fun dc => le_of_eq (hVA dc).symm,
          fun dc => by rw [hVA dc, hVA pdc]; exact hInv dc⟩
      · have hpa : ((set_availability st op.avail).server pdc).alive = true := by
          rw [set_availability_alive]
          exact hgood rfl
        have hnv : new_version (set_availability st op.avail) pdc op.file =
            versionOf (st.server pdc) op.file + 1 := by
          rw [new_version_of_alive hpa, hVA]
        have hdeadpres : ∀ dc, ((set_availability st op.avail).server dc).alive = false →
            versionOf (st'.server dc) op.file = versionOf (st.server dc) op.file := by
          intro dc hdc'
          unfold versionOf
          rw [write_files_of_dead hpt hw dc hdc', set_availability_files]
        have hpv : versionOf (st'.server pdc) op.file =
            versionOf (st.server pdc) op.file + 1 := by
          rw [versionOf_of_fileData (write_fileData_of_alive hpt hw pdc hpa), hnv]
        constructor
        · intro dc
          by_cases hdc : ((set_availability st op.avail).server dc).alive = true
          · rw [versionOf_of_fileData (write_fileData_of_alive hpt hw dc hdc), hnv]
            exact Nat.le_succ_of_le (hInv dc)
          · rw [hdeadpres dc (by simpa using hdc)]
        · intro dc
          by_cases hdc : ((set_availability st op.avail).server dc).alive = true
          · rw [versionOf_of_fileData (write_fileData_of_alive hpt hw dc hdc), hnv, hpv]
          · rw [hdeadpres dc (by simpa using hdc), hpv]
            exact Nat.le_succ_of_le (hInv dc)
    · have hptg : ∃ pdcg, pt op.file = some pdcg := by
        rcases hg : pt op.file with _ | pdcg
        · rw [write_none_of_no_primary hg] at hw
          cases hw
        · exact ⟨pdcg, rfl⟩
      obtain ⟨pdcg, hg⟩ := hptg
      have hpres : ∀ dc, versionOf (st'.server dc) f = versionOf (st.server dc) f := by
        intro dc
        unfold versionOf
        rw [write_other_file hg (fun h => hf h.symm) hw dc, set_availability_files]
      exact ⟨fun dc => le_of_eq (hpres dc).symm,
        fun dc => by rw [hpres dc, hpres pdc]; exact hInv dc⟩

theorem runOps_version_facts (pt : PrimaryTable) (f : String) (pdc : DataCenter)
    (hpt : pt f = some pdc) :
    ∀ (ops : List WriteOp) (st : SysState),
      (∀ op ∈ ops, op.file = f → op.avail pdc = true) →
      (∀ dc, versionOf (st.server dc) f ≤ versionOf (st.server pdc) f) →
      (∀ dc, versionOf (st.server dc) f ≤ versionOf ((runOps pt st ops).server dc) f) ∧
      (∀ dc, versionOf ((runOps pt st ops).server dc) f ≤
        versionOf ((runOps pt st ops).server pdc) f) := by
  intro ops
  induction ops with
  | nil => exact fun st _ hInv => ⟨fun dc => le_refl _, hInv⟩
  | cons op rest ih =>
    intro st hgood hInv
    have hstep := doOp_version_facts pt f pdc hpt st op
      (hgood op (List.mem_cons_self op rest)) hInv
    have hrest := ih (doOp pt st op)
      (fun o ho => hgood o (List.mem_cons_of_mem op ho)) hstep.2
    exact ⟨fun dc => le_trans (hstep.1 dc) (hrest.1 dc), hrest.2⟩

/-- C3 as stated is refuted here: every replica bootstraps "f" at version
1; a first all-up write takes Toronto to version 2; a second write with
the New York primary down (quorum still met) recomputes the version from
the unreachable primary as 0 + 1 = 1 and overwrites Toronto back down to
version 1 — a strict decrease. -/
theorem C3_counterexample :
    versionOf ((runOps ptF stAllUp [opAllUp]).server .TORONTO) "f" = 2 ∧
    versionOf ((runOps ptF stAllUp [opAllUp, opNYDown]).server .TORONTO) "f" = 1 ∧
    (1 : Nat) < 2 := by
  decide

/-- C3 amended: provided every replica starts with the same stored
version for `f` and the primary of `f` is available whenever `f` is
written, the version each replica stores for `f` never decreases across
any sequence of quorum writes (with arbitrary availability toggles in
between). -/
theorem C3_amended_version_monotone (st0 : SysState) (pt : PrimaryTable) (f : String)
    (pdc : DataCenter) (ops1 ops2 : List WriteOp) (hpt : pt f = some pdc)
    (huni : ∀ dc, versionOf (st0.server dc) f = versionOf (st0.server pdc) f)
    (hgood : ∀ op ∈ ops1 ++ ops2, op.file = f → op.avail pdc = true) :
    ∀ dc, versionOf ((runOps pt st0 ops1).server dc) f ≤
      versionOf ((runOps pt st0 (ops1 ++ ops2)).server dc) f := by
  intro dc
  have hfacts1 := runOps_version_facts pt f pdc hpt ops1 st0
    (fun op ho => hgood op (List.mem_append_left _ ho))
    (fun d => le_of_eq (huni d))
  have hfacts2 := runOps_version_facts pt f pdc hpt ops2 (runOps pt st0 ops1)
    (fun op ho => hgood op (List.mem_append_right _ ho)) hfacts1.2
  have happ : runOps pt st0 (ops1 ++ ops2) = runOps pt (runOps pt st0 ops1) ops2 := by
    unfold runOps
    exact List.foldl_append _ _ _ _
  rw [happ]
  exact hfacts2.1 dc

/-- Witness for the amended C3 on a concrete one-write sequence. -/
theorem C3_witness :
    versionOf ((runOps ptF stAllUp []).server .TORONTO) "f" ≤
      versionOf ((runOps ptF stAllUp ([] ++ [opAllUp])).server .TORONTO) "f" :=
  C3_amended_version_monotone stAllUp ptF "f" .NEW_YORK [] [opAllUp] (by decide)
    (fun dc => by cases dc <;> rfl)
    (fun op ho _ => by
      obtain rfl := List.mem_singleton.mp ho
      rfl) .TORONTO

/-! ### Claim C4 -/

theorem getElem_some_lt {α : Type} {l : List α} {i : Nat} {x : α} (h : l[i]? = some x) :
    i < l.length := by
  by_contra h'
  simp [List.getElem?_eq_none (Nat.le_of_not_lt h')] at h

theorem best_server_available {st : SysState} {pref dc : DataCenter}
    (h : get_best_server_for_read st pref = some dc) :
    (st.server dc).is_available = true := by
  unfold get_best_server_for_read at h
  split at h
  · cases h
    assumption
  · simpa using List.find?_some h

theorem TogglesOnly.files_eq {st st' : SysState} (h : TogglesOnly st st') (dc : DataCenter) :
    (st'.server dc).files = (st.server dc).files := by
  cases dc
  · exact h.1
  · exact h.2.2.1
  · exact h.2.2.2.2.1

theorem TogglesOnly.listeners_eq {st st' : SysState} (h : TogglesOnly st st')
    (dc : DataCenter) : (st'.server dc).cache_listeners = (st.server dc).cache_listeners := by
  cases dc
  · exact h.2.1
  · exact h.2.2.2.1
  · exact h.2.2.2.2.2.1

theorem TogglesOnly.clients_eq {st st' : SysState} (h : TogglesOnly st st') :
    st'.clients = st.clients := h.2.2.2.2.2.2

theorem invalidate_entry_lookup {c : Client} {n cc : String} {v : Nat} {bv : Bool}
    (h : alLookup n c.cache = some ⟨cc, v, bv⟩) :
    alLookup n (c.invalidate_cache_entry n).cache = some ⟨cc, v, false⟩ := by
  unfold Client.invalidate_cache_entry
  simp only [h]
  simp [alLookup_alInsert_self]

theorem invalidate_entry_preferred (c : Client) (n : String) :
    (c.invalidate_cache_entry n).preferred_dc = c.preferred_dc := by
  unfold Client.invalidate_cache_entry
  rcases h : alLookup n c.cache with _ | e <;> simp [h]

theorem fileData_some_elim {s : Server} {n c : String} {v : Nat}
    (h : fileData s n = some (c, v)) :
    ∃ fv : FileVersion, alLookup n s.files = some fv ∧ fv.content = c ∧ fv.version = v := by
  unfold fileData at h
  rcases hl : alLookup n s.files with _ | fv
  · rw [hl] at h
    cases h
  · rw [hl] at h
    simp only [Option.map_some', Option.some.injEq, Prod.mk.injEq] at h
    exact ⟨fv, rfl, h.1, h.2⟩

theorem client_first_read_char {st st' : SysState} {pt : PrimaryTable} {i : Nat}
    {f out : String} {pdc : DataCenter} {c : Client}
    (hc : st.clients[i]? = some c) (hpt : pt f = some pdc)
    (hnoent : alLookup f c.cache = none)
    (hr : client_read_file st pt i f = some (st', out)) :
    ∃ fv : FileVersion,
      out = fv.content ∧
      st'.clients[i]? =
        some ({ c with cache := alInsert f ⟨fv.content, fv.version, true⟩ c.cache }) ∧
      (∀ dc, (st'.server dc).files = (st.server dc).files) ∧
      i ∈ invalidate_targets (st'.server pdc) f := by
  unfold client_read_file at hr
  simp only [hc, hpt, hnoent] at hr
  unfold client_refresh at hr
  rcases hd : dfs_read_file st f c.preferred_dc with _ | ofv <;> simp only [hd] at hr
  · exact absurd hr (by simp)
  · rcases ofv with _ | fv
    · exact absurd hr (by simp)
    · simp only [Option.some.injEq, Prod.mk.injEq] at hr
      obtain ⟨hst', hout⟩ := hr
      have hlen : i < st.clients.length := getElem_some_lt hc
      refine ⟨fv, hout.symm, ?_, ?_, ?_⟩
      · rw [← hst']
        cases pdc <;>
          simp [SysState.updServer, SysState.setServer, List.getElem?_set_eq_of_lt _ hlen]
      · intro dc
        rw [← hst']
        cases pdc <;> cases dc <;>
          simp [SysState.updServer, SysState.setServer, Server.register_files]
      · rw [← hst']
        cases pdc <;>
          · simp only [SysState.updServer, SysState.setServer]
            exact register_mem_targets _ f i

theorem client_write_char {st st3 : SysState} {pt : PrimaryTable} {b : Nat}
    {f c : String} (hw : client_write_file st pt b f c = some (st3, true)) :
    ∃ stW, write_file_with_quorum st pt f c = some (stW, true) ∧
      (∀ dc, st3.server dc = stW.server dc) ∧
      (∀ j, j ≠ b → st3.clients[j]? = stW.clients[j]?) := by
  unfold client_write_file at hw
  rcases hww : write_file_with_quorum st pt f c with _ | ⟨stW, bb⟩ <;>
    simp only [hww] at hw
  · exact absurd hw (by simp)
  · cases bb
    · exact absurd hw (by simp)
    · rcases hpt : pt f with _ | pdc <;> simp only [hpt] at hw
      · exact absurd hw (by simp)
      · rcases hrf : (stW.server pdc).read_file f with _ | fv <;> simp only [hrf] at hw
        · simp only [Option.some.injEq, Prod.mk.injEq] at hw
          obtain ⟨rfl, -⟩ := hw
          exact ⟨stW, rfl, fun dc => rfl, fun j hj => rfl⟩
        · rcases hcl : stW.clients[b]? with _ | cb <;> simp only [hcl] at hw
          · simp only [Option.some.injEq, Prod.mk.injEq] at hw
            obtain ⟨rfl, -⟩ := hw
            exact ⟨stW, rfl, fun dc => rfl, fun j hj => rfl⟩
          · simp only [Option.some.injEq, Prod.mk.injEq] at hw
            obtain ⟨h1, -⟩ := hw
            refine ⟨stW, rfl, ?_, ?_⟩
            · intro dc
              rw [← h1]
              cases dc <;> rfl
            · intro j hj
              rw [← h1]
              simp [List.getElem?_set_ne (Ne.symm hj)]

/-- C4 as stated is refuted here: client 0 (preferring Toronto) reads
"f" and caches `"X"@1`; Toronto goes down; client 1 writes "Y"
successfully (New York and London reach version 2, client 0 is
invalidated); Toronto comes back up, still stale; client 0 reads again
and the refresh is served by its preferred Toronto replica, returning the
stale content "X", not the newly written "Y".  The cache entry of
client 0 is invalid before that read (so the "X" cannot be a cache hit:
hits require `valid = true`), and the Toronto replica stores `("X", 1)`:
the stale content comes from the refetched replica. -/
theorem C4_counterexample :
    (client_read_file stTwoClients ptF 0 "f").map Prod.snd = some "X" ∧
    (client_write_file c4st2 ptF 1 "f" "Y").map Prod.snd = some true ∧
    alLookup "f" (c4st4.clients.getD 0 ⟨.NEW_YORK, []⟩).cache = some ⟨"X", 1, false⟩ ∧
    fileData (c4st4.server .TORONTO) "f" = some ("X", 1) ∧
    (client_read_file c4st4 ptF 0 "f").map Prod.snd = some "X" ∧
    "X" ≠ "Y" := by
  decide

/-- C4 amended: in the read-toggle-write-toggle-read scenario, (1) the
invalidation push of the write always reaches the reading client, so
when its second read starts its cache entry for the file is invalid and
the stale cached content is never served; (2) the second read therefore
refetches and returns exactly the content stored at the replica chosen
by `get_best_server_for_read`; and (3) whenever that replica was
available during the write, the returned content is the newly written
one.  What a replica that was unavailable during the write returns on
the refetch is the remaining gap the counterexample exhibits. -/
theorem C4_amended_cache_coherence
    (st0 st1 st2 st3 st4 st5 : SysState) (pt : PrimaryTable) (a b : Nat)
    (f c0 newC cOut : String) (pdc rdc : DataCenter) (ca : Client)
    (hab : a ≠ b) (hpt : pt f = some pdc)
    (hca : st0.clients[a]? = some ca) (hnoent : alLookup f ca.cache = none)
    (h1 : client_read_file st0 pt a f = some (st1, c0))
    (ht1 : TogglesOnly st1 st2)
    (h2 : client_write_file st2 pt b f newC = some (st3, true))
    (ht2 : TogglesOnly st3 st4)
    (hbest : get_best_server_for_read st4 ca.preferred_dc = some rdc)
    (h3 : client_read_file st4 pt a f = some (st5, cOut)) :
    (∃ cl4 e, st4.clients[a]? = some cl4 ∧ alLookup f cl4.cache = some e ∧
      e.valid = false) ∧
    (∃ fv2, alLookup f (st4.server rdc).files = some fv2 ∧ cOut = fv2.content) ∧
    ((st2.server rdc).alive = true → cOut = newC) := by
  obtain ⟨fv, hout, hci, hfiles1, hsub⟩ := client_first_read_char hca hpt hnoent h1
  have hci2 : st2.clients[a]? =
      some ({ ca with cache := alInsert f ⟨fv.content, fv.version, true⟩ ca.cache }) := by
    rw [ht1.clients_eq]
    exact hci
  have hsub2 : a ∈ invalidate_targets (st2.server pdc) f := by
    unfold invalidate_targets at hsub ⊢
    rw [ht1.listeners_eq pdc]
    exact hsub
  obtain ⟨stW, hww, hsrv, hclj⟩ := client_write_char h2
  have hclW : stW.clients = (invalidate_targets (st2.server pdc) f).foldl
      (fun cs i => notifyClient cs i f) st2.clients := write_clients_of_success hpt hww
  have hca3 : st3.clients[a]? =
      some (Client.invalidate_cache_entry
        ({ ca with cache := alInsert f ⟨fv.content, fv.version, true⟩ ca.cache }) f) := by
    rw [hclj a hab, hclW, foldl_notify_mem hsub2 f st2.clients, hci2]
    rfl
  have hca4 : st4.clients[a]? =
      some (Client.invalidate_cache_entry
        ({ ca with cache := alInsert f ⟨fv.content, fv.version, true⟩ ca.cache }) f) := by
    rw [ht2.clients_eq]
    exact hca3
  have hlook4 : alLookup f (Client.invalidate_cache_entry
      ({ ca with cache := alInsert f ⟨fv.content, fv.version, true⟩ ca.cache }) f).cache =
      some ⟨fv.content, fv.version, false⟩ :=
    invalidate_entry_lookup
      (alLookup_alInsert_self f ⟨fv.content, fv.version, true⟩ ca.cache)
  have hpref : (Client.invalidate_cache_entry
      ({ ca with cache := alInsert f ⟨fv.content, fv.version, true⟩ ca.cache }) f).preferred_dc =
      ca.preferred_dc := invalidate_entry_preferred _ f
  have havail4 : (st4.server rdc).alive = true := best_server_available hbest
  unfold client_read_file at h3
  simp only [hca4, hpt, hlook4] at h3
  rw [if_neg (by simp)] at h3
  unfold client_refresh dfs_read_file at h3
  simp only [hpref, hbest, Server.read_file_alive havail4] at h3
  rcases hl : alLookup f (st4.server rdc).files with _ | fv2 <;> simp only [hl] at h3
  · exact absurd h3 (by simp)
  · simp only [Option.some.injEq, Prod.mk.injEq] at h3
    refine ⟨⟨_, _, hca4, hlook4, rfl⟩, ⟨fv2, rfl, h3.2.symm⟩, ?_⟩
    intro hrdc
    obtain ⟨fv3, hlw, hcw, -⟩ :=
      fileData_some_elim (write_fileData_of_alive hpt hww rdc hrdc)
    have hl4 : alLookup f (st4.server rdc).files = some fv3 := by
      rw [ht2.files_eq rdc, hsrv rdc]
      exact hlw
    have hfveq : fv2 = fv3 := Option.some.inj (hl.symm.trans hl4)
    rw [← h3.2, hfveq, hcw]

/-- Witness for the amended C4: both clients prefer New York; before the
second read the cache entry of client 0 for "f" is invalid, and the
refetch is served by New York, which applied the write, so the read
returns "Y". -/
theorem C4_witness :
    (∃ cl4 e, w4st4.clients[0]? = some cl4 ∧ alLookup "f" cl4.cache = some e ∧
      e.valid = false) ∧
    w4out = "Y" :=
  ⟨(C4_amended_cache_coherence stWit4 w4st1 w4st2 w4st3 w4st4 w4st5 ptF 0 1 "f" "X" "Y" w4out
      .NEW_YORK .NEW_YORK ⟨.NEW_YORK, []⟩ (by decide) (by decide) (by decide) (by decide)
      (by decide) (by decide) (by decide) (by decide) (by decide) (by decide)).1,
   (C4_amended_cache_coherence stWit4 w4st1 w4st2 w4st3 w4st4 w4st5 ptF 0 1 "f" "X" "Y" w4out
      .NEW_YORK .NEW_YORK ⟨.NEW_YORK, []⟩ (by decide) (by decide) (by decide) (by decide)
      (by decide) (by decide) (by decide) (by decide) (by decide) (by decide)).2.2
     (by decide)⟩

end DFSModel
